import Mathlib

/-!
Verification of the frame-resolution and filename-templating core of the
Vid-to-Thumb tool (src/Vid-to-Thumb.py), shallowly embedded in Lean 4.

Modelling conventions:
* Python strings are modelled as `List Char`.  The Python predicates
  `str.isdigit` / `str.isalpha` and the regex class `\w` are modelled by the
  ASCII predicates `Char.isDigit` / `Char.isAlpha` / alphanumeric-or-underscore;
  all inputs appearing in theorems below are ASCII, where the Python and Lean
  predicates agree.
* Python floats (`fps`, `total_seconds()`) are modelled as exact rationals `ℚ`;
  `int(x)` on a float is truncation toward zero, modelled by `truncQ`.
* Python machine behaviour that can raise inside the `try:` blocks of the
  source (ValueError from `int('')`, OverflowError from `datetime.timedelta`,
  `re.error` from a bad user regex, IndexError from a missing comma) is
  modelled with `Except Unit`.
* Recursions that walk a string while sometimes consuming several characters
  at once are written with an explicit fuel argument, initialised with the
  length of the string; one unit of fuel is spent per step and every step
  consumes at least one character, so the out-of-fuel branch is unreachable.
-/

/-- `int(s)` on a non-empty all-digit string: decimal value of a digit list. -/
def digitsVal (l : List Char) : Nat :=
  l.foldl (fun a c => 10 * a + (c.toNat - 48)) 0

/-- Decimal digits of `n`, most significant first, via repeated division;
the fuel `n+1` always suffices.  Models Python `str(n)` / `f-string` rendering
of a non-negative integer. -/
def natToCharsAux : Nat → Nat → List Char
  | 0, _ => []
  | fuel + 1, n =>
    if n < 10 then [Char.ofNat (48 + n)]
    else natToCharsAux fuel (n / 10) ++ [Char.ofNat (48 + n % 10)]

def natToChars (n : Nat) : List Char := natToCharsAux (n + 1) n

/-- Left-pad with `c` to width `w`. -/
def leftPad (c : Char) (w : Nat) (s : List Char) : List Char :=
  List.replicate (w - s.length) c ++ s

/-- Python `f"{n:06d}"`: decimal rendering zero-padded to total width 6,
the sign counting toward the width. -/
def formatFrame (n : Int) : List Char :=
  if n < 0 then '-' :: leftPad '0' 5 (natToChars n.natAbs)
  else leftPad '0' 6 (natToChars n.toNat)

/-- One scanning step of Python `str.replace(old, new)` (all occurrences,
left to right, non-overlapping).  Only called with `old ≠ []`; fuel is the
length of the scanned string. -/
def replaceAllGo (old new : List Char) : Nat → List Char → List Char
  | _, [] => []
  | 0, s => s
  | fuel + 1, c :: cs =>
    if old.isPrefixOf (c :: cs) then
      new ++ replaceAllGo old new fuel (cs.drop (old.length - 1))
    else
      c :: replaceAllGo old new fuel cs

/-- Python `s.replace(old, new)`, including the empty-`old` behaviour
(`"abc".replace("", "X") = "XaXbXcX"`). -/
def replaceAll (s old new : List Char) : List Char :=
  if old = [] then new ++ s.flatMap (fun c => c :: new)
  else replaceAllGo old new s.length s

/-- `old` occurs as a contiguous substring of `s`. -/
def occurs (old s : List Char) : Prop := ∃ l r, s = l ++ (old ++ r)

/-- Index of the last occurrence of `c` in `s` (Python `str.rfind`). -/
def lastIdxOf (c : Char) (s : List Char) : Option Nat :=
  match s.reverse.findIdx? (· = c) with
  | none => none
  | some i => some (s.length - 1 - i)

/-- CPython `os.path.splitext` (posix, no altsep): split at the last dot,
provided some character strictly between the last path separator and that
dot is not itself a dot. -/
def splitext (p : List Char) : List Char × List Char :=
  match lastIdxOf '.' p with
  | none => (p, [])
  | some d =>
    let s := match lastIdxOf '/' p with
             | none => 0
             | some k => k + 1
    if s ≤ d then
      if ((p.drop s).take (d - s)).any (fun c => c ≠ '.') then (p.take d, p.drop d)
      else (p, [])
    else (p, [])

/-! ## Frame resolver (`parse_time`, `calculate_frame_number`) -/

/-- The mutable `parts` dictionary of `parse_time`. -/
structure TimeParts where
  hours : Nat
  minutes : Nat
  seconds : Nat
deriving DecidableEq, Repr

/-- The character loop of `parse_time`: digits accumulate in `cv`
(`current_value`), a recognised unit letter commits `int(cv)` into the
corresponding field (raising ValueError when `cv` is empty, modelled as
`Except.error`), and every other character is skipped. -/
def parseTimeGo : List Char → List Char → TimeParts → Except Unit TimeParts
  | [], cv, parts =>
    if cv = [] then Except.ok parts
    else Except.ok { parts with seconds := digitsVal cv }
  | c :: cs, cv, parts =>
    if c.isDigit then parseTimeGo cs (cv ++ [c]) parts
    else if c = 'h' then
      if cv = [] then Except.error ()
      else parseTimeGo cs [] { parts with hours := digitsVal cv }
    else if c = 'm' then
      if cv = [] then Except.error ()
      else parseTimeGo cs [] { parts with minutes := digitsVal cv }
    else if c = 's' then
      if cv = [] then Except.error ()
      else parseTimeGo cs [] { parts with seconds := digitsVal cv }
    else parseTimeGo cs cv parts

/-- `parse_time` of the source. -/
def parse_time (ts : List Char) : Except Unit TimeParts :=
  parseTimeGo ts [] ⟨0, 0, 0⟩

/-- `timedelta(**parse_time(ts)).total_seconds()`: the total is exact for the
integer fields used here; `datetime.timedelta` raises OverflowError when the
normalised number of days reaches 10^9, i.e. when the total number of seconds
reaches 86400 * 10^9. -/
def timedeltaSeconds (ts : List Char) : Except Unit Nat :=
  match parse_time ts with
  | Except.error e => Except.error e
  | Except.ok p =>
    let tot := 3600 * p.hours + 60 * p.minutes + p.seconds
    if 86400000000000 ≤ tot then Except.error () else Except.ok tot

/-- Python `int(q)` on a (rational-modelled) float: truncation toward zero. -/
def truncQ (q : ℚ) : Int :=
  if 0 ≤ q.num then ((q.num.toNat / q.den : Nat) : Int)
  else -(((-q.num).toNat / q.den : Nat) : Int)

/-- The `frame_option` argument: the CLI hands `calculate_frame_number`
either a Python `int` or a `str`. -/
inductive FrameOption where
  | intOpt : Int → FrameOption
  | strOpt : List Char → FrameOption
deriving DecidableEq, Repr

/-- Which warning `calculate_frame_number` prints, if any. -/
inductive FrameWarn where
  | invalidTime : FrameWarn
  | invalidSpec : FrameWarn
deriving DecidableEq, Repr

def tPlus : List Char := ['t', '+']

/-- `calculate_frame_number` of the source: the returned frame index paired
with the warning it prints, if any.  `total_frames` and `fps` are the
metadata the source reads from the capture handle. -/
def calculate_frame_number (total_frames : Int) (fps : ℚ) (opt : FrameOption) :
    Int × Option FrameWarn :=
  match opt with
  | FrameOption.intOpt n => (min (max n 0) (total_frames - 1), none)
  | FrameOption.strOpt s =>
    if s.take 2 = tPlus then
      match timedeltaSeconds (s.drop 2) with
      | Except.ok sec => (min (truncQ ((sec : ℚ) * fps)) (total_frames - 1), none)
      | Except.error _ => (0, some FrameWarn.invalidTime)
    else (0, some FrameWarn.invalidSpec)

/-- The metadata-dependent part of `extract_frame` (source lines 98-117):
the resolved frame number, the fps value substituted for the time label,
whether the low-fps warning fired, and the elapsed-time value
`frame_number / fps` that the label formats. -/
structure ExtractCore where
  frameNumber : Int
  fpsUsed : ℚ
  fpsWarned : Bool
  timeValue : ℚ
deriving DecidableEq, Repr

def extract_frame_core (total_frames : Int) (fps_raw : ℚ) (opt : FrameOption) :
    ExtractCore :=
  let fn := (calculate_frame_number total_frames fps_raw opt).1
  let fps := if fps_raw ≤ 0 then (30 : ℚ) else fps_raw
  { frameNumber := fn
    fpsUsed := fps
    fpsWarned := decide (fps_raw ≤ 0)
    timeValue := (fn : ℚ) / fps }

/-- The `-n` (`--frame`) CLI conversion `lambda x: int(x) if x.isdigit() else x`:
a non-empty all-digit string becomes an `int`, anything else stays a string. -/
def parseFrameArg (s : List Char) : FrameOption :=
  if s ≠ [] ∧ s.all Char.isDigit then FrameOption.intOpt (digitsVal s)
  else FrameOption.strOpt s

/-! ## Name templater (`apply_regex_pattern`)

The four `re.sub` passes of the source use the fixed patterns
`{(\w+\.\w+)}`, `{(\w+:[^}]+)}`, `{(n\.match\([^}]+\))}` and
`{(n\.replace\([^}]+\))}`.  For each of these, leftmost matching with
greedy quantifiers is deterministic (a `\w+` run cannot trade characters
with the literal that follows it, and inside `[^}]+` only the position
abutting the next `}` can satisfy the trailing literal), so each pattern
is embedded as a maximal-munch matcher returning the captured group and
the total match length.  `re.search` with the user-supplied regex of
`n.match(...)` is external to the program and kept abstract as a
parameter that may fail (a bad regex raises `re.error`). -/

def SearchFn : Type :=
  List Char → List Char → Except Unit (Option (List Char))

/-- The regex class `\w` (ASCII). -/
def isWordChar (c : Char) : Bool := c.isAlphanum || c = '_'

def tokN : List Char := ['{', 'n', '}']
def tokF : List Char := ['{', 'f', '}']
def tokT : List Char := ['{', 't', '}']
def tokNBase : List Char := ['{', 'n', '.', 'b', 'a', 's', 'e', '}']
def tokNDigits : List Char := ['{', 'n', '.', 'd', 'i', 'g', 'i', 't', 's', '}']
def tokNLetters : List Char := ['{', 'n', '.', 'l', 'e', 't', 't', 'e', 'r', 's', '}']

def nLit : List Char := ['n']
def nMatchLit : List Char := ['n', '.', 'm', 'a', 't', 'c', 'h', '(']
def nReplaceLit : List Char := ['n', '.', 'r', 'e', 'p', 'l', 'a', 'c', 'e', '(']
def errSuffix : List Char := ['_', 'e', 'r', 'r', 'o', 'r']

/-- Matcher for `{(\w+\.\w+)}` at the head of the string: captured group and
total match length. -/
def matchWordDotWord (s : List Char) : Option (List Char × Nat) :=
  match s with
  | [] => none
  | c :: rest =>
    if c = '{' then
      let w1 := rest.takeWhile isWordChar
      if w1 = [] then none
      else
        let r1 := rest.drop w1.length
        if r1.head? = some '.' then
          let r2 := r1.tail
          let w2 := r2.takeWhile isWordChar
          if w2 = [] then none
          else if (r2.drop w2.length).head? = some '}' then
            some (w1 ++ '.' :: w2, w1.length + w2.length + 3)
          else none
        else none
    else none

/-- Matcher for `{(\w+:[^}]+)}` at the head of the string. -/
def matchWordColon (s : List Char) : Option (List Char × Nat) :=
  match s with
  | [] => none
  | c :: rest =>
    if c = '{' then
      let w1 := rest.takeWhile isWordChar
      if w1 = [] then none
      else
        let r1 := rest.drop w1.length
        if r1.head? = some ':' then
          let r2 := r1.tail
          let u := r2.takeWhile (fun x => x ≠ '}')
          if u = [] then none
          else if (r2.drop u.length).head? = some '}' then
            some (w1 ++ ':' :: u, w1.length + u.length + 3)
          else none
        else none
    else none

/-- Matcher for `{(lit[^}]+\))}` at the head of the string, where `lit` is the
literal `n.match(` or `n.replace(`: the `[^}]+` run must stop right before a
`}` and its last character must be the `)`, with a non-empty argument text
in between. -/
def matchCall (lit : List Char) (s : List Char) : Option (List Char × Nat) :=
  match s with
  | [] => none
  | c :: rest =>
    if c = '{' then
      if lit.isPrefixOf rest then
        let r2 := rest.drop lit.length
        let u := r2.takeWhile (fun x => x ≠ '}')
        if (r2.drop u.length).head? = some '}' then
          if 2 ≤ u.length ∧ u.getLast? = some ')' then
            some (lit ++ u, lit.length + u.length + 2)
          else none
        else none
      else none
    else none

/-- Python `s.split(sep)` for a one-character separator. -/
def splitOnChar (sep : Char) : List Char → List (List Char)
  | [] => [[]]
  | c :: cs =>
    if c = sep then [] :: splitOnChar sep cs
    else
      match splitOnChar sep cs with
      | h :: t => (c :: h) :: t
      | [] => [[c]]

/-- Python `s.split(sep, 1)`: the part before the first separator, and the
remainder after it when the separator occurs. -/
def splitFirst (sep : Char) : List Char → List Char × Option (List Char)
  | [] => ([], none)
  | c :: cs =>
    if c = sep then ([], some cs)
    else
      let p := splitFirst sep cs
      (c :: p.1, p.2)

/-- The part of `regex_replacer` after the `if ':' in command` block: the
`n.match(` / `n.replace(` dispatch, with the whole match `{command}` passed
through unchanged when neither applies. -/
def regexReplacerTail (search : SearchFn) (original cmd : List Char) :
    Except Unit (List Char) :=
  if nMatchLit.isPrefixOf cmd then
    match search ((cmd.drop 8).dropLast) original with
    | Except.error e => Except.error e
    | Except.ok (some m) => Except.ok m
    | Except.ok none => Except.ok []
  else if nReplaceLit.isPrefixOf cmd then
    match splitFirst ',' ((cmd.drop 10).dropLast) with
    | (a, some b) => Except.ok (replaceAll original a b)
    | (_, none) => Except.error ()
  else Except.ok ('{' :: (cmd ++ ['}']))

/-- The `regex_replacer` callback of the source, on an already-captured
command text.  The `if ':' in command` block falls through to the prefix
checks when its inner condition fails; `n.replace` with no comma in its
arguments raises IndexError (`Except.error`). -/
def regexReplacer (search : SearchFn) (original cmd : List Char) :
    Except Unit (List Char) :=
  if ':' ∈ cmd then
    match splitOnChar ':' cmd with
    | p0 :: p1 :: _ =>
      if p0 = nLit ∧ p1 ≠ [] ∧ p1.all Char.isDigit then
        Except.ok (original.take (digitsVal p1))
      else regexReplacerTail search original cmd
    | _ => Except.error ()
  else regexReplacerTail search original cmd

/-- One `re.sub(pattern, regex_replacer, text)` pass: scan left to right,
replace each non-overlapping match by the callback result, keep other
characters.  Fuel is the length of the text; every step consumes at least
one character (a match length is always ≥ 1 since a match starts at `{`). -/
def scanGo (tm : List Char → Option (List Char × Nat))
    (rr : List Char → Except Unit (List Char)) :
    Nat → List Char → Except Unit (List Char)
  | _, [] => Except.ok []
  | 0, s => Except.ok s
  | fuel + 1, c :: cs =>
    match tm (c :: cs) with
    | some (cmd, k) =>
      match rr cmd with
      | Except.error e => Except.error e
      | Except.ok r =>
        match scanGo tm rr fuel (cs.drop (k - 1)) with
        | Except.error e => Except.error e
        | Except.ok t => Except.ok (r ++ t)
    | none =>
      match scanGo tm rr fuel cs with
      | Except.error e => Except.error e
      | Except.ok t => Except.ok (c :: t)

def scanPass (tm : List Char → Option (List Char × Nat))
    (rr : List Char → Except Unit (List Char)) (s : List Char) :
    Except Unit (List Char) :=
  scanGo tm rr s.length s

/-- The `replacements` dictionary loop of `apply_regex_pattern`: literal
token substitution, in the insertion order of the Python dict. -/
def substTokens (original : List Char) (frame_num : Int) (time_pos : List Char)
    (pattern : List Char) : List Char :=
  let p1 := replaceAll pattern tokN original
  let p2 := replaceAll p1 tokF (formatFrame frame_num)
  let p3 := replaceAll p2 tokT time_pos
  let p4 := replaceAll p3 tokNBase (splitext original).1
  let p5 := replaceAll p4 tokNDigits (original.filter Char.isDigit)
  replaceAll p5 tokNLetters (original.filter Char.isAlpha)

/-- The body of the `try:` block of `apply_regex_pattern`: token substitution
followed by the four `re.sub` passes, any step allowed to raise. -/
def applyRegexE (search : SearchFn) (original pattern : List Char)
    (frame_num : Int) (time_pos : List Char) : Except Unit (List Char) :=
  let rr := regexReplacer search original
  match scanPass matchWordDotWord rr (substTokens original frame_num time_pos pattern) with
  | Except.error e => Except.error e
  | Except.ok p1 =>
    match scanPass matchWordColon rr p1 with
    | Except.error e => Except.error e
    | Except.ok p2 =>
      match scanPass (matchCall nMatchLit) rr p2 with
      | Except.error e => Except.error e
      | Except.ok p3 => scanPass (matchCall nReplaceLit) rr p3

/-- `apply_regex_pattern` of the source: total, with the `except:` clause
returning `f"{original}_error"` on any raised error. -/
def apply_regex_pattern (search : SearchFn) (original pattern : List Char)
    (frame_num : Int) (time_pos : List Char) : List Char :=
  match applyRegexE search original pattern frame_num time_pos with
  | Except.ok v => v
  | Except.error _ => original ++ errSuffix

/-! ## Path de-duplication (`avoid_overwrite`) -/

/-- The `while os.path.exists(path)` loop of `avoid_overwrite`; the
filesystem is modelled as the finite list `fs` of existing paths.  The
fuel `fs.length + 1` always suffices (`avoid_overwrite_spec` below relies
on the candidate names being pairwise distinct). -/
def avoidAux (fs : List (List Char)) (base ext : List Char) :
    Nat → List Char → Nat → List Char
  | 0, path, _ => path
  | fuel + 1, path, counter =>
    if path ∈ fs then
      avoidAux fs base ext fuel (base ++ '_' :: (natToChars counter ++ ext)) (counter + 1)
    else path

/-- `avoid_overwrite` of the source. -/
def avoid_overwrite (fs : List (List Char)) (p : List Char) : List Char :=
  let be := splitext p
  avoidAux fs be.1 be.2 (fs.length + 1) p 1

/-- The candidate written on loop iteration `counter`. -/
def mkCand (base ext : List Char) (k : Nat) : List Char :=
  base ++ '_' :: (natToChars k ++ ext)

/-- A search function for concrete renderings whose template contains no
`n.match` directive (it is never consulted there). -/
def trivSearch : SearchFn := fun _ _ => Except.ok none

/-- A search function modelling `re.search` with a regex whose compilation
raises `re.error`. -/
def errSearch : SearchFn := fun _ _ => Except.error ()

/-- The concrete template `{n.match(x)}` used to exhibit the bad-regex
failure path, and `{n.replace(x)}` for the missing-comma failure path. -/
def matchXTemplate : List Char :=
  ['{', 'n', '.', 'm', 'a', 't', 'c', 'h', '(', 'x', ')', '}']

def replaceXTemplate : List Char :=
  ['{', 'n', '.', 'r', 'e', 'p', 'l', 'a', 'c', 'e', '(', 'x', ')', '}']

/-- The captured `[^}]+` text of a `{n.replace(<old>,<new>)}` directive:
`<old>,<new>)`. -/
def c1Arg (old new : List Char) : List Char :=
  old ++ ',' :: (new ++ [')'])

/-- Everything after the opening `{` of a `{n.replace(<old>,<new>)}`
directive. -/
def c1Tails (old new : List Char) : List Char :=
  'n' :: '.' :: 'r' :: 'e' :: 'p' :: 'l' :: 'a' :: 'c' :: 'e' :: '(' ::
    (c1Arg old new ++ ['}'])

/-- The template `{n.replace(<old>,<new>)}` as a function of the two
argument strings. -/
def c1Template (old new : List Char) : List Char :=
  '{' :: c1Tails old new

/-! ## Helper lemmas -/

theorem truncQ_nonneg {q : ℚ} (h : 0 ≤ q) : 0 ≤ truncQ q := by
  unfold truncQ
  rw [if_pos (Rat.num_nonneg.mpr h)]
  exact Int.natCast_nonneg _

theorem truncQ_intCast (n : Int) : truncQ ((n : ℚ)) = n := by
  unfold truncQ
  rw [Rat.num_intCast, Rat.den_intCast]
  split_ifs with h
  · simp [Int.toNat_of_nonneg h]
  · simp only [Nat.div_one]
    omega

/-- Characters that are neither digits nor recognised unit letters leave the
state of the `parse_time` loop untouched. -/
theorem parseTimeGo_skip (c : Char) (hd : c.isDigit = false) (hh : c ≠ 'h')
    (hm : c ≠ 'm') (hs : c ≠ 's') (ts2 : List Char) :
    ∀ (ts1 cv : List Char) (parts : TimeParts),
      parseTimeGo (ts1 ++ c :: ts2) cv parts = parseTimeGo (ts1 ++ ts2) cv parts := by
  intro ts1
  induction ts1 with
  | nil =>
    intro cv parts
    simp [parseTimeGo, hd, hh, hm, hs]
  | cons d ds ih =>
    intro cv parts
    simp only [List.cons_append, parseTimeGo]
    split_ifs <;> first | rfl | apply ih

/-! ## Claims about the frame resolver -/

/-- C5: for every integer `n` and `totalFrames = T ≥ 1`, resolving
`Absolute(n)` yields `min (max n 0) (T-1)`, which lies in `[0, T-1]`, and no
warning is printed. -/
theorem c5_absolute_clamp (n T : Int) (fps : ℚ) (hT : 1 ≤ T) :
    calculate_frame_number T fps (FrameOption.intOpt n) = (min (max n 0) (T - 1), none)
    ∧ 0 ≤ min (max n 0) (T - 1) ∧ min (max n 0) (T - 1) ≤ T - 1 :=
  ⟨rfl, le_min (le_max_right _ _) (by omega), min_le_right _ _⟩

/-- C5 witness: `Absolute(-7)` against 5 total frames clamps to 0, silently. -/
theorem c5_absolute_clamp_witness :
    calculate_frame_number 5 30 (FrameOption.intOpt (-7)) = (min (max (-7) 0) (5 - 1), none)
    ∧ 0 ≤ min (max (-7 : Int) 0) (5 - 1) ∧ min (max (-7 : Int) 0) (5 - 1) ≤ 5 - 1 :=
  c5_absolute_clamp (-7) 5 30 (by decide)

/-- C7 (amended): whenever the metadata reports `totalFrames ≥ 1` and a
non-negative fps, every index produced by the resolver lies in
`[0, totalFrames - 1]`.  (For `totalFrames = 0` the resolver still runs and
escapes this range, see `c7_counterexample`.) -/
theorem c7_resolver_range (T : Int) (fps : ℚ) (opt : FrameOption)
    (hT : 1 ≤ T) (hfps : 0 ≤ fps) :
    0 ≤ (calculate_frame_number T fps opt).1
    ∧ (calculate_frame_number T fps opt).1 ≤ T - 1 := by
  cases opt with
  | intOpt n =>
    exact ⟨le_min (le_max_right _ _) (by omega), min_le_right _ _⟩
  | strOpt s =>
    simp only [calculate_frame_number]
    by_cases h : s.take 2 = tPlus
    · rw [if_pos h]
      cases hsec : timedeltaSeconds (s.drop 2) with
      | ok sec =>
        dsimp only
        have h0 : 0 ≤ truncQ ((sec : ℚ) * fps) :=
          truncQ_nonneg (mul_nonneg (by positivity) hfps)
        exact ⟨le_min h0 (by omega), min_le_right _ _⟩
      | error e =>
        dsimp only
        exact ⟨le_refl 0, by omega⟩
    · rw [if_neg h]
      exact ⟨le_refl 0, by omega⟩

/-- C7 witness: a relative specifier against sane metadata stays in range. -/
theorem c7_resolver_range_witness :
    0 ≤ (calculate_frame_number 10 30 (FrameOption.strOpt ['t', '+', '5', 's'])).1
    ∧ (calculate_frame_number 10 30 (FrameOption.strOpt ['t', '+', '5', 's'])).1 ≤ 10 - 1 :=
  c7_resolver_range 10 30 (FrameOption.strOpt ['t', '+', '5', 's']) (by decide) (by decide)

/-- C7 counterexample: a video reporting `totalFrames = 0` is still resolved —
`Absolute(5)` yields index `-1`, outside any valid range, so the resolver does
produce a frame index for such a video. -/
theorem c7_counterexample :
    (calculate_frame_number 0 30 (FrameOption.intOpt 5)).1 = -1
    ∧ ¬ 0 ≤ (calculate_frame_number 0 30 (FrameOption.intOpt 5)).1 := by
  decide

/-- C2 (amended): for every relative specifier whose time expression parses
(to `sec` seconds) and metadata with `T ≥ 1` and **non-negative** fps, the
resolved index equals `sec * fps` truncated to an integer and clamped into
`[0, T-1]`, hence is never negative.  The source applies no lower clamp —
`min(int(sec * fps), T-1)` only — so the clamped form holds because the
truncation is already non-negative here; a negative fps escapes it, see
`c2_counterexample`. -/
theorem c2_relative_clamp (T : Int) (fps : ℚ) (ts : List Char) (sec : Nat)
    (hsec : timedeltaSeconds ts = Except.ok sec) (hT : 1 ≤ T) (hfps : 0 ≤ fps) :
    calculate_frame_number T fps (FrameOption.strOpt ('t' :: '+' :: ts))
      = (min (max (truncQ ((sec : ℚ) * fps)) 0) (T - 1), none)
    ∧ 0 ≤ min (max (truncQ ((sec : ℚ) * fps)) 0) (T - 1) := by
  have h0 : 0 ≤ truncQ ((sec : ℚ) * fps) :=
    truncQ_nonneg (mul_nonneg (by positivity) hfps)
  constructor
  · have hdrop : ('t' :: '+' :: ts).drop 2 = ts := rfl
    simp only [calculate_frame_number, hdrop, hsec]
    rw [if_pos (show List.take 2 ('t' :: '+' :: ts) = tPlus from rfl), max_eq_left h0]
  · exact le_min (le_max_right _ _) (by omega)

/-- C2 witness: the documented example — `t+1m30s` at `fps = 30` with
`T = 2800` resolves to `min (max 2700 0) 2799 = 2700`. -/
theorem c2_relative_clamp_witness :
    calculate_frame_number 2800 30 (FrameOption.strOpt ('t' :: '+' :: ['1', 'm', '3', '0', 's']))
      = (min (max (truncQ ((90 : ℚ) * 30)) 0) (2800 - 1), none)
    ∧ 0 ≤ min (max (truncQ ((90 : ℚ) * 30)) 0) (2800 - 1) :=
  c2_relative_clamp 2800 30 ['1', 'm', '3', '0', 's'] 90 (by rfl) (by decide) (by decide)

/-- C2 counterexample: the claim promises a result clamped into `[0, T-1]`
for any fps, but with corrupt metadata `fps = -30` the specifier `t+1s`
resolves to `-30`: the code has no lower clamp. -/
theorem c2_counterexample :
    (calculate_frame_number 10 (-30) (FrameOption.strOpt ['t', '+', '1', 's'])).1 = -30
    ∧ (calculate_frame_number 10 (-30) (FrameOption.strOpt ['t', '+', '1', 's'])).1 < 0 := by
  have h1 : calculate_frame_number 10 (-30) (FrameOption.strOpt ['t', '+', '1', 's'])
      = (min (truncQ (((1 : Nat) : ℚ) * (-30))) (10 - 1), none) := rfl
  have h2 : (((1 : Nat) : ℚ) * (-30)) = ((-30 : Int) : ℚ) := by norm_num
  rw [h1, h2, truncQ_intCast]
  exact ⟨by decide, by decide⟩

/-- C3 (amended): an unknown unit letter in a relative time expression is NOT
a parse failure — `parse_time` skips any character that is neither a digit
nor `h`/`m`/`s`, leaving its state unchanged, so digits accumulate across it.
The fallback to frame 0 with a warning happens exactly when the parse raises
(modelled by `timedeltaSeconds` returning an error, e.g. a unit letter with
no digits before it), and it is a warning, never a fatal error. -/
theorem c3_parse_failure_behaviour :
    (∀ (ts1 ts2 : List Char) (c : Char), c.isDigit = false → c ≠ 'h' → c ≠ 'm' → c ≠ 's' →
      parse_time (ts1 ++ c :: ts2) = parse_time (ts1 ++ ts2))
    ∧ (∀ (T : Int) (fps : ℚ) (ts : List Char), timedeltaSeconds ts = Except.error () →
      calculate_frame_number T fps (FrameOption.strOpt ('t' :: '+' :: ts))
        = (0, some FrameWarn.invalidTime)) := by
  constructor
  · intro ts1 ts2 c hd hh hm hs
    exact parseTimeGo_skip c hd hh hm hs ts2 ts1 [] ⟨0, 0, 0⟩
  · intro T fps ts h
    have hdrop : ('t' :: '+' :: ts).drop 2 = ts := rfl
    simp only [calculate_frame_number, hdrop, h]
    rw [if_pos (show List.take 2 ('t' :: '+' :: ts) = tPlus from rfl)]

/-- C3 witness: the unknown unit `x` in `1x2s` is skipped (same parse as
`12s`), while the malformed expression `m5` (unit with no digits) makes
`t+m5` fall back to frame 0 with the invalid-time warning. -/
theorem c3_parse_failure_behaviour_witness :
    parse_time ['1', 'x', '2', 's'] = parse_time ['1', '2', 's']
    ∧ calculate_frame_number 100 30 (FrameOption.strOpt ['t', '+', 'm', '5'])
        = (0, some FrameWarn.invalidTime) :=
  ⟨c3_parse_failure_behaviour.1 ['1'] ['2', 's'] 'x' (by decide) (by decide) (by decide)
      (by decide),
   c3_parse_failure_behaviour.2 100 30 ['m', '5'] (by rfl)⟩

/-- C3 counterexample: the claim says an unknown unit letter makes resolution
return frame 0 with a warning, but `t+1x` at `fps = 30`, `T = 100` resolves
to frame 30 — the `x` is silently ignored and the trailing `1` counts as
seconds — with no warning at all. -/
theorem c3_counterexample :
    (calculate_frame_number 100 30 (FrameOption.strOpt ['t', '+', '1', 'x'])).1 = 30
    ∧ (calculate_frame_number 100 30 (FrameOption.strOpt ['t', '+', '1', 'x'])).1 ≠ 0
    ∧ (calculate_frame_number 100 30 (FrameOption.strOpt ['t', '+', '1', 'x'])).2 = none := by
  have h1 : calculate_frame_number 100 30 (FrameOption.strOpt ['t', '+', '1', 'x'])
      = (min (truncQ (((1 : Nat) : ℚ) * 30)) (100 - 1), none) := rfl
  have h2 : (((1 : Nat) : ℚ) * 30) = ((30 : Int) : ℚ) := by norm_num
  rw [h1, h2, truncQ_intCast]
  refine ⟨by decide, by decide, rfl⟩

/-- C4 (amended): when the metadata reports `fps ≤ 0`, `extract_frame`
substitutes the default 30.0 with a warning and uses it for the time label;
the frame index, however, is resolved by `calculate_frame_number` with the
raw fps, because the substitution happens only after resolution.  The run
does not fail. -/
theorem c4_fps_default (T : Int) (fps : ℚ) (opt : FrameOption) (h : fps ≤ 0) :
    (extract_frame_core T fps opt).fpsUsed = 30
    ∧ (extract_frame_core T fps opt).fpsWarned = true
    ∧ (extract_frame_core T fps opt).frameNumber = (calculate_frame_number T fps opt).1
    ∧ (extract_frame_core T fps opt).timeValue
        = (((calculate_frame_number T fps opt).1 : ℚ)) / 30 := by
  simp [extract_frame_core, h]

/-- C4 witness: instantiated at `fps = 0` with a relative specifier. -/
theorem c4_fps_default_witness :
    (extract_frame_core 100 0 (FrameOption.strOpt ['t', '+', '1', 's'])).fpsUsed = 30
    ∧ (extract_frame_core 100 0 (FrameOption.strOpt ['t', '+', '1', 's'])).fpsWarned = true
    ∧ (extract_frame_core 100 0 (FrameOption.strOpt ['t', '+', '1', 's'])).frameNumber
        = (calculate_frame_number 100 0 (FrameOption.strOpt ['t', '+', '1', 's'])).1
    ∧ (extract_frame_core 100 0 (FrameOption.strOpt ['t', '+', '1', 's'])).timeValue
        = (((calculate_frame_number 100 0 (FrameOption.strOpt ['t', '+', '1', 's'])).1 : ℚ)) / 30 :=
  c4_fps_default 100 0 (FrameOption.strOpt ['t', '+', '1', 's']) (by decide)

/-- C4 counterexample: with `fps = 0` and specifier `t+1s` against 100
frames the program resolves frame `int(1 * 0) = 0`, not the frame
`int(1 * 30) = 30` that resolving with the defaulted fps would give: the
defaulted value is NOT used for frame resolution. -/
theorem c4_counterexample :
    (extract_frame_core 100 0 (FrameOption.strOpt ['t', '+', '1', 's'])).frameNumber = 0
    ∧ (calculate_frame_number 100 30 (FrameOption.strOpt ['t', '+', '1', 's'])).1 = 30
    ∧ (extract_frame_core 100 0 (FrameOption.strOpt ['t', '+', '1', 's'])).frameNumber
        ≠ (calculate_frame_number 100 30 (FrameOption.strOpt ['t', '+', '1', 's'])).1 := by
  have e0 : (extract_frame_core 100 0 (FrameOption.strOpt ['t', '+', '1', 's'])).frameNumber
      = min (truncQ (((1 : Nat) : ℚ) * 0)) (100 - 1) := rfl
  have e30 : (calculate_frame_number 100 30 (FrameOption.strOpt ['t', '+', '1', 's'])).1
      = min (truncQ (((1 : Nat) : ℚ) * 30)) (100 - 1) := rfl
  have h0 : (((1 : Nat) : ℚ) * 0) = ((0 : Int) : ℚ) := by norm_num
  have h30 : (((1 : Nat) : ℚ) * 30) = ((30 : Int) : ℚ) := by norm_num
  rw [e0, e30, h0, h30, truncQ_intCast, truncQ_intCast]
  refine ⟨by decide, by decide, by decide⟩

/-- C10: a string frame specifier that does not start with `t+` makes the
resolver print the invalid-specifier warning and return index 0, whatever
the metadata says; and since the CLI converts `-n` to an integer only for
all-digit strings, the argument `-5` stays a string and resolves to 0 via
that warning path (not via clamping). -/
theorem c10_invalid_spec :
    (∀ (T : Int) (fps : ℚ) (s : List Char), s.take 2 ≠ tPlus →
      calculate_frame_number T fps (FrameOption.strOpt s) = (0, some FrameWarn.invalidSpec))
    ∧ parseFrameArg ['-', '5'] = FrameOption.strOpt ['-', '5']
    ∧ (∀ (T : Int) (fps : ℚ),
      calculate_frame_number T fps (parseFrameArg ['-', '5'])
        = (0, some FrameWarn.invalidSpec)) := by
  have key : ∀ (T : Int) (fps : ℚ) (s : List Char), s.take 2 ≠ tPlus →
      calculate_frame_number T fps (FrameOption.strOpt s) = (0, some FrameWarn.invalidSpec) := by
    intro T fps s h
    simp only [calculate_frame_number]
    rw [if_neg h]
  refine ⟨key, by decide, ?_⟩
  intro T fps
  have harg : parseFrameArg ['-', '5'] = FrameOption.strOpt ['-', '5'] := by decide
  rw [harg]
  exact key T fps ['-', '5'] (by decide)

/-- C10 witness: `-5` against any concrete metadata resolves through the
invalid-specifier path. -/
theorem c10_invalid_spec_witness :
    calculate_frame_number 100 30 (FrameOption.strOpt ['-', '5'])
      = (0, some FrameWarn.invalidSpec) :=
  c10_invalid_spec.1 100 30 ['-', '5'] (by decide)

/-! ## Claims about the name templater -/

/-- C8: plain tokens are substituted before any directive processing —
`{n}` to the basename, `{f}` to the frame index zero-padded to six digits,
`{t}` to the time label — so `{n}_f{f}_{t}` with basename `clip`, frame 42
and label `1.40s` renders to `clip_f000042_1.40s`, whatever the regex
search behaviour is. -/
theorem c8_plain_tokens :
    ∀ search : SearchFn,
      apply_regex_pattern search ['c', 'l', 'i', 'p']
        ['{', 'n', '}', '_', 'f', '{', 'f', '}', '_', '{', 't', '}'] 42
        ['1', '.', '4', '0', 's']
      = ['c', 'l', 'i', 'p', '_', 'f', '0', '0', '0', '0', '4', '2', '_',
         '1', '.', '4', '0', 's'] :=
  fun _ => rfl

set_option maxHeartbeats 2000000 in
/-- C6: rendering is total — `apply_regex_pattern` is a function returning a
plain string for every template and context — and whenever the body of the
`try:` block raises (`applyRegexE` returns an error) the result is the
original basename with `_error` appended.  The last two conjuncts exhibit
the two internal failure sources reaching that fallback: a user regex whose
compilation fails inside `{n.match(...)}`, and a `{n.replace(...)}` with no
comma between its arguments (IndexError). -/
theorem c6_total_with_fallback :
    (∀ (search : SearchFn) (original pattern : List Char) (f : Int) (t : List Char),
      apply_regex_pattern search original pattern f t = original ++ errSuffix
      ∨ ∃ v, applyRegexE search original pattern f t = Except.ok v
          ∧ apply_regex_pattern search original pattern f t = v)
    ∧ (∀ original : List Char,
      apply_regex_pattern errSearch original matchXTemplate 0 [] = original ++ errSuffix)
    ∧ (∀ (search : SearchFn) (original : List Char),
      apply_regex_pattern search original replaceXTemplate 0 [] = original ++ errSuffix) := by
  refine ⟨?_, ?_, ?_⟩
  · intro search original pattern f t
    cases h : applyRegexE search original pattern f t with
    | ok v =>
      right
      exact ⟨v, rfl, by unfold apply_regex_pattern; rw [h]⟩
    | error e =>
      left
      unfold apply_regex_pattern
      rw [h]
  · intro original
    have hsub : substTokens original 0 [] matchXTemplate = matchXTemplate := rfl
    have h1 : scanPass matchWordDotWord (regexReplacer errSearch original) matchXTemplate
        = Except.ok matchXTemplate := rfl
    have h2 : scanPass matchWordColon (regexReplacer errSearch original) matchXTemplate
        = Except.ok matchXTemplate := rfl
    have h3 : scanPass (matchCall nMatchLit) (regexReplacer errSearch original) matchXTemplate
        = Except.error () := rfl
    unfold apply_regex_pattern applyRegexE
    dsimp only
    rw [hsub, h1]
    dsimp only
    rw [h2]
    dsimp only
    rw [h3]
  · intro search original
    have hsub : substTokens original 0 [] replaceXTemplate = replaceXTemplate := rfl
    have h1 : scanPass matchWordDotWord (regexReplacer search original) replaceXTemplate
        = Except.ok replaceXTemplate := rfl
    have h2 : scanPass matchWordColon (regexReplacer search original) replaceXTemplate
        = Except.ok replaceXTemplate := rfl
    have h3 : scanPass (matchCall nMatchLit) (regexReplacer search original) replaceXTemplate
        = Except.ok replaceXTemplate := rfl
    have h4 : scanPass (matchCall nReplaceLit) (regexReplacer search original) replaceXTemplate
        = Except.error () := rfl
    unfold apply_regex_pattern applyRegexE
    dsimp only
    rw [hsub, h1]
    dsimp only
    rw [h2]
    dsimp only
    rw [h3]
    dsimp only
    rw [h4]

/-- C1 counterexample: `{n.replace(a,X)}` on basename `banana` renders to
`bXnXnX` — Python `str.replace` replaces every occurrence — not to the
`bXnana` (first occurrence only) the claim states. -/
theorem c1_counterexample :
    apply_regex_pattern trivSearch ['b', 'a', 'n', 'a', 'n', 'a']
        (c1Template ['a'] ['X']) 0 []
      = ['b', 'X', 'n', 'X', 'n', 'X']
    ∧ (['b', 'X', 'n', 'X', 'n', 'X'] : List Char) ≠ ['b', 'X', 'n', 'a', 'n', 'a'] :=
  ⟨rfl, by decide⟩

theorem isPrefixOf_iff_exists : ∀ (a b : List Char),
    a.isPrefixOf b = true ↔ ∃ u, b = a ++ u
  | [], b => by simp [List.isPrefixOf]
  | x :: xs, [] => by simp [List.isPrefixOf]
  | x :: xs, y :: ys => by
    simp only [List.isPrefixOf, Bool.and_eq_true, beq_iff_eq]
    constructor
    · rintro ⟨hxy, h⟩
      obtain ⟨u, hu⟩ := (isPrefixOf_iff_exists xs ys).mp h
      exact ⟨u, by simp [hxy, hu]⟩
    · rintro ⟨u, hu⟩
      injection hu with hy hys
      exact ⟨hy.symm, (isPrefixOf_iff_exists xs ys).mpr ⟨u, hys⟩⟩

theorem occurs_nil (s : List Char) : occurs [] s := ⟨[], s, rfl⟩

theorem replaceAllGo_no_occurs (old new : List Char) :
    ∀ (s : List Char) (fuel : Nat), s.length ≤ fuel → ¬ occurs old s →
      replaceAllGo old new fuel s = s
  | [], fuel, _, _ => by cases fuel <;> rfl
  | c :: cs, fuel, hlen, hocc => by
    cases fuel with
    | zero => simp at hlen
    | succ f =>
      have hpre : old.isPrefixOf (c :: cs) = false := by
        cases hp : old.isPrefixOf (c :: cs) with
        | false => rfl
        | true =>
          obtain ⟨u, hu⟩ := (isPrefixOf_iff_exists _ _).mp hp
          exact absurd ⟨[], u, by simp [hu]⟩ hocc
      have hocc2 : ¬ occurs old cs := by
        rintro ⟨l, r, hl⟩
        exact hocc ⟨c :: l, r, by simp [hl]⟩
      have hlen2 : cs.length ≤ f := by simp at hlen; omega
      simp only [replaceAllGo, hpre, Bool.false_eq_true, if_false]
      rw [replaceAllGo_no_occurs old new cs f hlen2 hocc2]

theorem replaceAll_no_occurs {s old new : List Char} (h : ¬ occurs old s) :
    replaceAll s old new = s := by
  have hne : old ≠ [] := fun he => h (he ▸ occurs_nil s)
  unfold replaceAll
  rw [if_neg hne]
  exact replaceAllGo_no_occurs old new s s.length le_rfl h

theorem takeWhile_all_append {p : Char → Bool} {l : List Char}
    (h : ∀ c ∈ l, p c = true) (m : List Char) :
    List.takeWhile p (l ++ m) = l ++ List.takeWhile p m := by
  induction l with
  | nil => simp
  | cons x xs ih =>
    have hx : p x = true := h x (List.mem_cons_self x xs)
    simp [List.takeWhile_cons, hx, ih fun c hc => h c (List.mem_cons_of_mem x hc)]

theorem splitFirst_comma {old : List Char} (h : ',' ∉ old) (new : List Char) :
    splitFirst ',' (old ++ ',' :: new) = (old, some new) := by
  induction old with
  | nil => simp [splitFirst]
  | cons x xs ih =>
    have hx : ¬ x = ',' := fun he => h (by simp [he])
    have ih2 := ih fun hm => h (List.mem_cons_of_mem x hm)
    simp only [List.cons_append, splitFirst, if_neg hx]
    rw [show xs.append (',' :: new) = xs ++ ',' :: new from rfl, ih2]

theorem splitOnChar_ne_nil (sep : Char) (s : List Char) : splitOnChar sep s ≠ [] := by
  cases s with
  | nil => simp [splitOnChar]
  | cons c cs =>
    unfold splitOnChar
    split_ifs
    · simp
    · cases h : splitOnChar sep cs <;> simp

theorem splitOnChar_two_of_mem {sep : Char} :
    ∀ {s : List Char}, sep ∈ s → 2 ≤ (splitOnChar sep s).length := by
  intro s
  induction s with
  | nil => simp
  | cons c cs ih =>
    intro hm
    unfold splitOnChar
    by_cases h : c = sep
    · rw [if_pos h]
      have h1 : 0 < (splitOnChar sep cs).length :=
        List.length_pos.mpr (splitOnChar_ne_nil sep cs)
      simp only [List.length_cons]
      omega
    · rw [if_neg h]
      have hm2 : sep ∈ cs := by
        rcases List.mem_cons.mp hm with h1 | h1
        · exact absurd h1.symm h
        · exact h1
      have h2 := ih hm2
      cases he : splitOnChar sep cs with
      | nil => exact absurd he (splitOnChar_ne_nil sep cs)
      | cons hh tt =>
        rw [he] at h2
        simp only [List.length_cons] at h2 ⊢
        omega

theorem splitOnChar_cons_ne {sep c : Char} (h : ¬ c = sep) {cs hh : List Char}
    {tt : List (List Char)} (he : splitOnChar sep cs = hh :: tt) :
    splitOnChar sep (c :: cs) = (c :: hh) :: tt := by
  unfold splitOnChar
  rw [if_neg h, he]

theorem occurs_brace_head {tr tail : List Char} (htail : '{' ∉ tail)
    (h : occurs ('{' :: tr) ('{' :: tail)) : tr.isPrefixOf tail = true := by
  obtain ⟨l, r, hl⟩ := h
  cases l with
  | nil =>
    injection hl with _ h2
    exact (isPrefixOf_iff_exists _ _).mpr ⟨r, h2⟩
  | cons x l2 =>
    injection hl with _ h2
    exact absurd (by rw [h2]; simp) htail

theorem c1Tails_no_brace {old new : List Char} (h1 : '{' ∉ old) (h3 : '{' ∉ new) :
    '{' ∉ c1Tails old new := by
  simp [c1Tails, c1Arg, h1, h3]

/-- Literal-token substitution leaves a `{n.replace(<old>,<new>)}` template
unchanged when the argument strings contain no braces: none of the six
tokens of the `replacements` dictionary occurs in it. -/
theorem substTokens_c1 (original : List Char) (f : Int) (t : List Char)
    {old new : List Char} (h1 : '{' ∉ old) (h3 : '{' ∉ new) :
    substTokens original f t (c1Template old new) = c1Template old new := by
  have htail : '{' ∉ c1Tails old new := c1Tails_no_brace h1 h3
  have hN : ¬ occurs tokN (c1Template old new) := by
    intro h
    obtain ⟨u, hu⟩ := (isPrefixOf_iff_exists _ _).mp (occurs_brace_head htail h)
    injection hu with _ hu2
    injection hu2 with he _
    exact absurd he (by decide)
  have hF : ¬ occurs tokF (c1Template old new) := by
    intro h
    obtain ⟨u, hu⟩ := (isPrefixOf_iff_exists _ _).mp (occurs_brace_head htail h)
    injection hu with he _
    exact absurd he (by decide)
  have hT : ¬ occurs tokT (c1Template old new) := by
    intro h
    obtain ⟨u, hu⟩ := (isPrefixOf_iff_exists _ _).mp (occurs_brace_head htail h)
    injection hu with he _
    exact absurd he (by decide)
  have hB : ¬ occurs tokNBase (c1Template old new) := by
    intro h
    obtain ⟨u, hu⟩ := (isPrefixOf_iff_exists _ _).mp (occurs_brace_head htail h)
    injection hu with _ hu2
    injection hu2 with _ hu3
    injection hu3 with he _
    exact absurd he (by decide)
  have hD : ¬ occurs tokNDigits (c1Template old new) := by
    intro h
    obtain ⟨u, hu⟩ := (isPrefixOf_iff_exists _ _).mp (occurs_brace_head htail h)
    injection hu with _ hu2
    injection hu2 with _ hu3
    injection hu3 with he _
    exact absurd he (by decide)
  have hL : ¬ occurs tokNLetters (c1Template old new) := by
    intro h
    obtain ⟨u, hu⟩ := (isPrefixOf_iff_exists _ _).mp (occurs_brace_head htail h)
    injection hu with _ hu2
    injection hu2 with _ hu3
    injection hu3 with he _
    exact absurd he (by decide)
  unfold substTokens
  dsimp only
  rw [replaceAll_no_occurs hN, replaceAll_no_occurs hF, replaceAll_no_occurs hT,
      replaceAll_no_occurs hB, replaceAll_no_occurs hD, replaceAll_no_occurs hL]

theorem matchWordDotWord_not_brace {c : Char} (h : ¬ c = '{') (cs : List Char) :
    matchWordDotWord (c :: cs) = none := by
  simp [matchWordDotWord, h]

theorem matchWordColon_not_brace {c : Char} (h : ¬ c = '{') (cs : List Char) :
    matchWordColon (c :: cs) = none := by
  simp [matchWordColon, h]

theorem matchCall_not_brace (lit : List Char) {c : Char} (h : ¬ c = '{')
    (cs : List Char) : matchCall lit (c :: cs) = none := by
  simp [matchCall, h]

theorem scanGo_no_brace (tm : List Char → Option (List Char × Nat))
    (rr : List Char → Except Unit (List Char))
    (hloc : ∀ (c : Char) (cs : List Char), ¬ c = '{' → tm (c :: cs) = none) :
    ∀ (s : List Char) (fuel : Nat), s.length ≤ fuel → '{' ∉ s →
      scanGo tm rr fuel s = Except.ok s
  | [], fuel, _, _ => by cases fuel <;> rfl
  | c :: cs, fuel, hlen, hmem => by
    cases fuel with
    | zero => simp at hlen
    | succ f =>
      have hc : ¬ c = '{' := fun he => hmem (by rw [← he]; exact List.mem_cons_self c cs)
      have hlen2 : cs.length ≤ f := by simp at hlen; omega
      have hmem2 : '{' ∉ cs := fun hm => hmem (List.mem_cons_of_mem c hm)
      simp only [scanGo, hloc c cs hc]
      rw [scanGo_no_brace tm rr hloc cs f hlen2 hmem2]

theorem scanPass_head_nomatch (tm : List Char → Option (List Char × Nat))
    (rr : List Char → Except Unit (List Char)) (tail : List Char)
    (hm : tm ('{' :: tail) = none)
    (hloc : ∀ (c : Char) (cs : List Char), ¬ c = '{' → tm (c :: cs) = none)
    (hmem : '{' ∉ tail) :
    scanPass tm rr ('{' :: tail) = Except.ok ('{' :: tail) := by
  unfold scanPass
  simp only [List.length_cons, scanGo, hm]
  rw [scanGo_no_brace tm rr hloc tail tail.length le_rfl hmem]

theorem c1Arg_eq_concat (old new : List Char) :
    c1Arg old new = (old ++ ',' :: new) ++ [')'] := by
  simp [c1Arg]

theorem isPrefixOf_self_append (l rest : List Char) :
    l.isPrefixOf (l ++ rest) = true := by
  induction l with
  | nil => simp [List.isPrefixOf]
  | cons x xs ih => simp [List.isPrefixOf, ih]

theorem nReplaceLit_prefix_c1Tails (old new : List Char) :
    nReplaceLit.isPrefixOf (c1Tails old new) = true := by
  have he : c1Tails old new = nReplaceLit ++ (c1Arg old new ++ ['}']) := rfl
  rw [he]
  exact isPrefixOf_self_append nReplaceLit _

theorem matchCall_c1 {old new : List Char} (h2 : '}' ∉ old) (h4 : '}' ∉ new) :
    matchCall nReplaceLit ('{' :: c1Tails old new)
      = some (nReplaceLit ++ c1Arg old new,
              nReplaceLit.length + (c1Arg old new).length + 2) := by
  have hall : ∀ c ∈ c1Arg old new, (fun x => decide (x ≠ '}')) c = true := by
    intro c hc
    simp only [c1Arg, List.mem_append, List.mem_cons, List.mem_singleton] at hc
    simp only [decide_eq_true_eq]
    rcases hc with h | h | h | h | h
    · exact fun he => h2 (he ▸ h)
    · rw [h]; decide
    · exact fun he => h4 (he ▸ h)
    · rw [h]; decide
    · exact absurd h (List.not_mem_nil c)
  have hu : List.takeWhile (fun x => decide (x ≠ '}')) (c1Arg old new ++ ['}'])
      = c1Arg old new := by
    rw [takeWhile_all_append hall]
    simp
  simp only [matchCall]
  rw [if_pos trivial]
  rw [nReplaceLit_prefix_c1Tails old new, if_pos rfl]
  have hr2 : (c1Tails old new).drop nReplaceLit.length = c1Arg old new ++ ['}'] := rfl
  rw [hr2, hu]
  have hd : (c1Arg old new ++ ['}']).drop (c1Arg old new).length = ['}'] :=
    List.drop_left _ _
  rw [hd]
  rw [show (['}'] : List Char).head? = some '}' from rfl]
  rw [if_pos rfl]
  have hlen : 2 ≤ (c1Arg old new).length := by
    simp only [c1Arg, List.length_append, List.length_cons]
    omega
  have hlast : (c1Arg old new).getLast? = some ')' := by
    rw [c1Arg_eq_concat]
    exact List.getLast?_concat _
  rw [if_pos ⟨hlen, hlast⟩]

theorem regexReplacerTail_c1 (search : SearchFn) (original : List Char)
    {old new : List Char} (h5 : ',' ∉ old) :
    regexReplacerTail search original (nReplaceLit ++ c1Arg old new)
      = Except.ok (replaceAll original old new) := by
  have hm : nMatchLit.isPrefixOf (nReplaceLit ++ c1Arg old new) = false := by
    have he : nReplaceLit ++ c1Arg old new
        = 'n' :: '.' :: 'r' :: ('e' :: 'p' :: 'l' :: 'a' :: 'c' :: 'e' :: '(' ::
            c1Arg old new) := rfl
    rw [he]
    simp [nMatchLit, List.isPrefixOf]
  have hr : nReplaceLit.isPrefixOf (nReplaceLit ++ c1Arg old new) = true :=
    isPrefixOf_self_append nReplaceLit _
  unfold regexReplacerTail
  rw [hm]
  rw [if_neg (by simp)]
  rw [hr, if_pos rfl]
  have hdrop : (nReplaceLit ++ c1Arg old new).drop 10 = c1Arg old new := by
    rw [show (10 : Nat) = nReplaceLit.length from rfl, List.drop_left]
  have hdl : (c1Arg old new).dropLast = old ++ ',' :: new := by
    rw [c1Arg_eq_concat, List.dropLast_concat]
  rw [hdrop, hdl, splitFirst_comma h5 new]

theorem regexReplacer_c1 (search : SearchFn) (original : List Char)
    {old new : List Char} (h5 : ',' ∉ old) :
    regexReplacer search original (nReplaceLit ++ c1Arg old new)
      = Except.ok (replaceAll original old new) := by
  unfold regexReplacer
  by_cases hc : ':' ∈ nReplaceLit ++ c1Arg old new
  · rw [if_pos hc]
    have hform : nReplaceLit ++ c1Arg old new
        = 'n' :: '.' :: ('r' :: 'e' :: 'p' :: 'l' :: 'a' :: 'c' :: 'e' :: '(' ::
            c1Arg old new) := rfl
    cases he : splitOnChar ':'
        ('r' :: 'e' :: 'p' :: 'l' :: 'a' :: 'c' :: 'e' :: '(' :: c1Arg old new) with
    | nil => exact absurd he (splitOnChar_ne_nil _ _)
    | cons hh tt =>
      have e1 := splitOnChar_cons_ne (by decide : ¬ '.' = ':') he
      have e0 := splitOnChar_cons_ne (by decide : ¬ 'n' = ':') e1
      have hlen2 : 2 ≤ (splitOnChar ':' (nReplaceLit ++ c1Arg old new)).length :=
        splitOnChar_two_of_mem hc
      rw [hform] at hlen2 ⊢
      rw [e0] at hlen2 ⊢
      cases tt with
      | nil => simp at hlen2
      | cons p1 tt2 =>
        dsimp only
        rw [if_neg (by rintro ⟨hp0, _⟩; simp [nLit] at hp0)]
        rw [← hform]
        exact regexReplacerTail_c1 search original h5
  · rw [if_neg hc]
    exact regexReplacerTail_c1 search original h5

theorem scanPass_c1 {old new : List Char} (h2 : '}' ∉ old) (h4 : '}' ∉ new)
    (rr : List Char → Except Unit (List Char)) {res : List Char}
    (hrr : rr (nReplaceLit ++ c1Arg old new) = Except.ok res) :
    scanPass (matchCall nReplaceLit) rr ('{' :: c1Tails old new) = Except.ok res := by
  unfold scanPass
  simp only [List.length_cons, scanGo]
  rw [matchCall_c1 h2 h4]
  dsimp only
  rw [hrr]
  have hnil : (c1Tails old new).drop
      (nReplaceLit.length + (c1Arg old new).length + 2 - 1) = [] := by
    apply List.drop_of_length_le
    simp only [c1Tails, c1Arg, nReplaceLit, List.length_cons, List.length_append,
      List.length_singleton]
    omega
  rw [hnil]
  simp [scanGo]

/-- C1 (amended): for every basename and brace-free argument strings `old`
(also comma-free, as everything after the first comma is `<new>`) and `new`,
rendering `{n.replace(<old>,<new>)}` returns the basename with EVERY
occurrence of `old` replaced by `new` (literal, non-regex replacement) —
Python `str.replace` is not first-occurrence-only. -/
theorem c1_replace_every_occurrence (search : SearchFn) (original : List Char)
    (f : Int) (t : List Char) {old new : List Char}
    (h1 : '{' ∉ old) (h2 : '}' ∉ old) (h3 : '{' ∉ new) (h4 : '}' ∉ new)
    (h5 : ',' ∉ old) :
    apply_regex_pattern search original (c1Template old new) f t
      = replaceAll original old new := by
  have htail : '{' ∉ c1Tails old new := c1Tails_no_brace h1 h3
  have hm1 : matchWordDotWord ('{' :: c1Tails old new) = none := rfl
  have hm2 : matchWordColon ('{' :: c1Tails old new) = none := rfl
  have hm3 : matchCall nMatchLit ('{' :: c1Tails old new) = none := by
    have hpre : nMatchLit.isPrefixOf (c1Tails old new) = false := by
      have he : c1Tails old new
          = 'n' :: '.' :: 'r' :: ('e' :: 'p' :: 'l' :: 'a' :: 'c' :: 'e' :: '(' ::
              (c1Arg old new ++ ['}'])) := rfl
      rw [he]
      simp [nMatchLit, List.isPrefixOf]
    simp [matchCall, hpre]
  have hp1 := scanPass_head_nomatch matchWordDotWord (regexReplacer search original)
    (c1Tails old new) hm1 (fun c cs h => matchWordDotWord_not_brace h cs) htail
  have hp2 := scanPass_head_nomatch matchWordColon (regexReplacer search original)
    (c1Tails old new) hm2 (fun c cs h => matchWordColon_not_brace h cs) htail
  have hp3 := scanPass_head_nomatch (matchCall nMatchLit) (regexReplacer search original)
    (c1Tails old new) hm3 (fun c cs h => matchCall_not_brace nMatchLit h cs) htail
  have hp4 := scanPass_c1 h2 h4 (regexReplacer search original)
    (regexReplacer_c1 search original h5)
  have hsub := substTokens_c1 original f t h1 h3
  have hT : c1Template old new = '{' :: c1Tails old new := rfl
  rw [hT] at hsub ⊢
  unfold apply_regex_pattern applyRegexE
  dsimp only
  rw [hsub, hp1]
  dsimp only
  rw [hp2]
  dsimp only
  rw [hp3]
  dsimp only
  rw [hp4]

/-- C1 witness: `{n.replace(a,X)}` on `banana` — the amended theorem applied
at the documented example, every `a` replaced by `X`. -/
theorem c1_replace_every_occurrence_witness :
    apply_regex_pattern trivSearch ['b', 'a', 'n', 'a', 'n', 'a']
        (c1Template ['a'] ['X']) 0 []
      = replaceAll ['b', 'a', 'n', 'a', 'n', 'a'] ['a'] ['X'] :=
  c1_replace_every_occurrence trivSearch ['b', 'a', 'n', 'a', 'n', 'a'] 0 []
    (by decide) (by decide) (by decide) (by decide) (by decide)

/-! ## Claims about path de-duplication -/

theorem digitChar_toNat {n : Nat} (h : n < 10) : (Char.ofNat (48 + n)).toNat = 48 + n := by
  interval_cases n <;> decide

theorem digitsVal_append_digit (l : List Char) (c : Char) :
    digitsVal (l ++ [c]) = 10 * digitsVal l + (c.toNat - 48) := by
  unfold digitsVal
  rw [List.foldl_append]
  rfl

theorem digitsVal_natToCharsAux : ∀ (fuel n : Nat), n < fuel →
    digitsVal (natToCharsAux fuel n) = n
  | 0, n, h => absurd h (Nat.not_lt_zero n)
  | fuel + 1, n, h => by
    unfold natToCharsAux
    by_cases h10 : n < 10
    · rw [if_pos h10]
      have hv : digitsVal [Char.ofNat (48 + n)] = (Char.ofNat (48 + n)).toNat - 48 := by
        unfold digitsVal
        simp
      rw [hv, digitChar_toNat h10]
      omega
    · rw [if_neg h10]
      push_neg at h10
      have hdiv : n / 10 < fuel := by
        have := Nat.div_lt_self (by omega : 0 < n) (by omega : 1 < 10)
        omega
      rw [digitsVal_append_digit, digitsVal_natToCharsAux fuel (n / 10) hdiv,
          digitChar_toNat (Nat.mod_lt n (by omega))]
      omega

theorem digitsVal_natToChars (n : Nat) : digitsVal (natToChars n) = n :=
  digitsVal_natToCharsAux (n + 1) n (Nat.lt_succ_self n)

theorem natToChars_injective : Function.Injective natToChars := by
  intro a b h
  have h2 := congrArg digitsVal h
  rwa [digitsVal_natToChars, digitsVal_natToChars] at h2

theorem mkCand_injective (base ext : List Char) :
    Function.Injective (mkCand base ext) := by
  intro a b h
  unfold mkCand at h
  have h2 := List.append_cancel_left h
  injection h2 with _ h3
  exact natToChars_injective (List.append_cancel_right h3)

theorem avoidAux_spec (fs : List (List Char)) (base ext : List Char) :
    ∀ (fuel c : Nat) (p : List Char),
      (p ∉ fs ∨ ∃ i, i < fuel ∧ mkCand base ext (c + i) ∉ fs) →
      avoidAux fs base ext fuel p c ∉ fs
  | 0, c, p, h => by
    rcases h with h | ⟨i, hi, _⟩
    · exact h
    · omega
  | fuel + 1, c, p, h => by
    unfold avoidAux
    by_cases hp : p ∈ fs
    · rw [if_pos hp]
      rcases h with h | ⟨i, hi, hni⟩
      · exact absurd hp h
      · cases i with
        | zero =>
          refine avoidAux_spec fs base ext fuel (c + 1) _ (Or.inl ?_)
          show mkCand base ext c ∉ fs
          simpa using hni
        | succ j =>
          refine avoidAux_spec fs base ext fuel (c + 1) _ (Or.inr ⟨j, by omega, ?_⟩)
          have he : c + 1 + j = c + (j + 1) := by omega
          rw [he]
          exact hni
    · rw [if_neg hp]
      exact hp

theorem exists_free_cand (fs : List (List Char)) (base ext : List Char) :
    ∃ i, i < fs.length + 1 ∧ mkCand base ext (1 + i) ∉ fs := by
  by_contra hcon
  push_neg at hcon
  have hinj : Function.Injective (fun i : Nat => mkCand base ext (1 + i)) := by
    intro a b h
    have := mkCand_injective base ext h
    omega
  have hsub : (Finset.range (fs.length + 1)).image (fun i => mkCand base ext (1 + i))
      ⊆ fs.toFinset := by
    intro x hx
    simp only [Finset.mem_image, Finset.mem_range] at hx
    obtain ⟨i, hi, hx⟩ := hx
    rw [List.mem_toFinset, ← hx]
    exact hcon i hi
  have hcard := Finset.card_le_card hsub
  rw [Finset.card_image_of_injective _ hinj, Finset.card_range] at hcard
  have := List.toFinset_card_le fs
  omega

/-- C9: `avoid_overwrite` returns a path that does not exist (is not in the
modelled filesystem `fs`) — the fuel `fs.length + 1` suffices because the
candidate names `base_1.ext, base_2.ext, …` are pairwise distinct — and on
the documented examples it appends `_1`, then `_2`, before the extension. -/
theorem c9_avoid_overwrite :
    (∀ (fs : List (List Char)) (p : List Char), avoid_overwrite fs p ∉ fs)
    ∧ avoid_overwrite [['o', 'u', 't', '.', 'j', 'p', 'g']]
        ['o', 'u', 't', '.', 'j', 'p', 'g']
      = ['o', 'u', 't', '_', '1', '.', 'j', 'p', 'g']
    ∧ avoid_overwrite
        [['o', 'u', 't', '.', 'j', 'p', 'g'], ['o', 'u', 't', '_', '1', '.', 'j', 'p', 'g']]
        ['o', 'u', 't', '.', 'j', 'p', 'g']
      = ['o', 'u', 't', '_', '2', '.', 'j', 'p', 'g'] := by
  refine ⟨?_, rfl, rfl⟩
  intro fs p
  unfold avoid_overwrite
  apply avoidAux_spec
  rcases exists_free_cand fs (splitext p).1 (splitext p).2 with ⟨i, hi, hni⟩
  exact Or.inr ⟨i, hi, hni⟩
